import Mathlib

set_option maxHeartbeats 1000000

/-!
Shallow embedding of the attribute-access core of
`source/blender/blenkernel/intern/geometry_component_curve.cc`, with
correctness theorems.

Modelling conventions:
- C++ `int` values (offsets, flat indices) are modelled as `Int`;
- C++ arrays and spans are modelled as Lean `List`s, and an array read is
  `List.getD` with an explicit default, the default standing for the value of
  an access the callers' preconditions rule out;
- `T()` value-initialization is the `Inhabited` default of the element type;
- writes into a caller-supplied buffer are modelled by rebuilding the list.
-/

/-- `std::upper_bound` over the offset table: the index of the first entry
strictly greater than `x` (the length of the list when there is none).  On a
sorted table this is exactly what the binary search in the source computes. -/
def upper_bound (offsets : List Int) (x : Int) : Nat :=
  offsets.findIdx (fun o => decide (x < o))

/-- `lookup_point_indices` (geometry_component_curve.cc:169-175): the owning
spline is `upper_bound - 1`, the local point index is the remainder.  The
result pair is (spline_index, point_index), modelling `struct PointIndices`. -/
def lookup_point_indices (offsets : List Int) (index : Int) : Int × Int :=
  let spline_index : Int := (upper_bound offsets index : Int) - 1
  (spline_index, index - offsets.getD spline_index.toNat 0)

/-- `upper_bound` never exceeds the table length. -/
theorem upper_bound_le_length (offsets : List Int) (x : Int) :
    upper_bound offsets x ≤ offsets.length :=
  List.findIdx_le_length _

/-- Entries strictly before the `upper_bound` position are at most `x`. -/
theorem getD_le_of_lt_upper_bound (offsets : List Int) (x : Int) (k : Nat)
    (hk : k < upper_bound offsets x) : offsets.getD k 0 ≤ x := by
  have hlen : k < offsets.length :=
    Nat.lt_of_lt_of_le hk (upper_bound_le_length offsets x)
  have h := @List.not_of_lt_findIdx _ (fun o => decide (x < o)) offsets k hk
  rw [List.getD_eq_getElem offsets 0 hlen]
  simp only [decide_eq_false_iff_not, not_lt] at h
  exact h

/-- The entry at the `upper_bound` position (when inside the table) is
strictly greater than `x`. -/
theorem lt_getD_upper_bound (offsets : List Int) (x : Int)
    (h : upper_bound offsets x < offsets.length) :
    x < offsets.getD (upper_bound offsets x) 0 := by
  have hp := @List.findIdx_getElem _ (fun o => decide (x < o)) offsets h
  rw [List.getD_eq_getElem offsets 0 h]
  simpa using hp

/-- Complete characterization of `lookup_point_indices` on a well-formed offset
table: it returns the unique owning spline together with the local index. -/
theorem lookup_point_indices_spec (offsets : List Int) (N : Nat) (total i : Int)
    (hlen : offsets.length = N + 1)
    (h0 : offsets.getD 0 0 = 0)
    (hmono : ∀ b, b < offsets.length → ∀ a, a ≤ b →
      offsets.getD a 0 ≤ offsets.getD b 0)
    (hN : offsets.getD N 0 = total)
    (hi0 : 0 ≤ i) (hitot : i < total) :
    ∃ s : Nat, s < N ∧
      lookup_point_indices offsets i = ((s : Int), i - offsets.getD s 0) ∧
      offsets.getD s 0 ≤ i ∧ i < offsets.getD (s + 1) 0 ∧
      ∀ t : Nat, t < N → offsets.getD t 0 ≤ i → i < offsets.getD (t + 1) 0 →
        t = s := by
  obtain ⟨j, hj⟩ : ∃ j, upper_bound offsets i = j := ⟨_, rfl⟩
  have hjlen : j ≤ offsets.length := hj ▸ upper_bound_le_length offsets i
  have hjub : j ≤ N := by
    by_contra hcon
    have h1 : offsets.getD N 0 ≤ i :=
      getD_le_of_lt_upper_bound offsets i N (by omega)
    omega
  have hj1 : 1 ≤ j := by
    by_contra hcon
    have h2 : i < offsets.getD (upper_bound offsets i) 0 :=
      lt_getD_upper_bound offsets i (by omega)
    rw [hj] at h2
    have hj0 : j = 0 := by omega
    rw [hj0, h0] at h2
    omega
  refine ⟨j - 1, by omega, ?_, ?_, ?_, ?_⟩
  · have htn : ((j : Int) - 1).toNat = j - 1 := by omega
    have hsi : ((j : Int) - 1) = ((j - 1 : Nat) : Int) := by omega
    show ((upper_bound offsets i : Int) - 1,
        i - offsets.getD ((upper_bound offsets i : Int) - 1).toNat 0) =
      (((j - 1 : Nat) : Int), i - offsets.getD (j - 1) 0)
    rw [hj, htn, hsi]
  · exact getD_le_of_lt_upper_bound offsets i (j - 1) (by omega)
  · have h2 : i < offsets.getD (upper_bound offsets i) 0 :=
      lt_getD_upper_bound offsets i (by omega)
    rw [hj] at h2
    have hje : j - 1 + 1 = j := by omega
    rw [hje]
    exact h2
  · intro t ht hle hlt
    by_contra hne
    rcases Nat.lt_or_ge t (j - 1) with hc | hc
    · have h1 : offsets.getD (t + 1) 0 ≤ offsets.getD (j - 1) 0 :=
        hmono (j - 1) (by omega) (t + 1) (by omega)
      have h2 : offsets.getD (j - 1) 0 ≤ i :=
        getD_le_of_lt_upper_bound offsets i (j - 1) (by omega)
      omega
    · have h1 : offsets.getD j 0 ≤ offsets.getD t 0 :=
        hmono t (by omega) j (by omega)
      have h2 : i < offsets.getD (upper_bound offsets i) 0 :=
        lt_getD_upper_bound offsets i (by omega)
      rw [hj] at h2
      omega

/-- C1: for every offset table with `offsets[0] = 0`, non-decreasing entries
and `offsets[N] = total`, and every flat index `i` with `0 ≤ i < total`,
`lookup_point_indices` returns the pair `(s, i - offsets[s])` for the unique
`s` with `offsets[s] ≤ i < offsets[s+1]`. -/
theorem C1_lookup_point_indices_correct (offsets : List Int) (N : Nat)
    (total i : Int)
    (hlen : offsets.length = N + 1)
    (h0 : offsets.getD 0 0 = 0)
    (hmono : ∀ b, b < offsets.length → ∀ a, a ≤ b →
      offsets.getD a 0 ≤ offsets.getD b 0)
    (hN : offsets.getD N 0 = total)
    (hi0 : 0 ≤ i) (hitot : i < total) :
    ∃ s : Nat, s < N ∧
      lookup_point_indices offsets i = ((s : Int), i - offsets.getD s 0) ∧
      offsets.getD s 0 ≤ i ∧ i < offsets.getD (s + 1) 0 ∧
      ∀ t : Nat, t < N → offsets.getD t 0 ≤ i → i < offsets.getD (t + 1) 0 →
        t = s :=
  lookup_point_indices_spec offsets N total i hlen h0 hmono hN hi0 hitot

/-- C1 witness: the table `[0, 3, 5]` (spline sizes 3 and 2) at flat index 4. -/
theorem C1_witness :
    ∃ s : Nat, s < 2 ∧
      lookup_point_indices [0, 3, 5] 4 =
        ((s : Int), 4 - ([0, 3, 5] : List Int).getD s 0) ∧
      ([0, 3, 5] : List Int).getD s 0 ≤ 4 ∧
      (4 : Int) < ([0, 3, 5] : List Int).getD (s + 1) 0 ∧
      ∀ t : Nat, t < 2 → ([0, 3, 5] : List Int).getD t 0 ≤ 4 →
        (4 : Int) < ([0, 3, 5] : List Int).getD (t + 1) 0 → t = s :=
  C1_lookup_point_indices_correct [0, 3, 5] 2 5 4 rfl rfl (by decide) rfl
    (by decide) (by decide)

/-- Helper: `getD` after `List.set` at the written position. -/
theorem getD_set_self {α : Type} (l : List α) (k : Nat) (a d : α)
    (h : k < l.length) : (l.set k a).getD k d = a := by
  rw [List.getD_eq_getElem _ d (by simpa using h)]
  simp [h]

/-- Helper: `getD` after `List.set` at any other position. -/
theorem getD_set_ne {α : Type} (l : List α) (k j : Nat) (a d : α)
    (h : k ≠ j) : (l.set k a).getD j d = l.getD j d := by
  rcases Nat.lt_or_ge j l.length with hj | hj
  · rw [List.getD_eq_getElem _ d (by simpa using hj),
      List.getD_eq_getElem _ d hj]
    exact List.getElem_set_ne h _
  · rw [List.getD_eq_default _ d (by simpa using hj),
      List.getD_eq_default _ d hj]

/-- Copy the values `vals` into the buffer `r` starting at position `off`,
one element at a time.  This models both `MutableSpan::copy_from` on a slice
(`dst.copy_from(src)`) and `MutableSpan::fill` (with `vals` a replicated
constant) from the materialize implementations. -/
def writeRun {α : Type} : List α → Nat → List α → List α
  | r, _, [] => r
  | r, off, v :: vs => writeRun (r.set off v) (off + 1) vs

theorem writeRun_length {α : Type} (vs : List α) (r : List α) (off : Nat) :
    (writeRun r off vs).length = r.length := by
  induction vs generalizing r off with
  | nil => rfl
  | cons v vs ih => simpa [writeRun] using ih (r.set off v) (off + 1)

/-- Positions outside of the written run are unchanged. -/
theorem writeRun_getD_out {α : Type} (vs : List α) (r : List α) (off i : Nat)
    (d : α) (h : i < off ∨ off + vs.length ≤ i) :
    (writeRun r off vs).getD i d = r.getD i d := by
  induction vs generalizing r off with
  | nil => rfl
  | cons v vs ih =>
    show (writeRun (r.set off v) (off + 1) vs).getD i d = r.getD i d
    rw [ih (r.set off v) (off + 1) (by simp at h; omega)]
    exact getD_set_ne r off i v d (by simp at h; omega)

/-- Positions inside of the written run hold the corresponding source value. -/
theorem writeRun_getD_in {α : Type} (vs : List α) (r : List α) (off i : Nat)
    (d : α) (h1 : off ≤ i) (h2 : i < off + vs.length) (h3 : i < r.length) :
    (writeRun r off vs).getD i d = vs.getD (i - off) d := by
  induction vs generalizing r off with
  | nil => simp at h2; omega
  | cons v vs ih =>
    show (writeRun (r.set off v) (off + 1) vs).getD i d = _
    rcases Nat.eq_or_lt_of_le h1 with he | hlt
    · rw [writeRun_getD_out vs (r.set off v) (off + 1) i d (by omega)]
      rw [← he]
      simpa using getD_set_self r off v d (by omega)
    · have h2' : i < (off + 1) + vs.length := by
        simp only [List.length_cons] at h2
        omega
      have h3' : i < (r.set off v).length := by simpa using h3
      rw [ih (r.set off v) (off + 1) hlt h2' h3']
      have hio : i - off = (i - (off + 1)) + 1 := by omega
      rw [hio]
      simp

/-- Helper: reading inside a replicated list gives the replicated value. -/
theorem getD_replicate_self {α : Type} (n k : Nat) (a d : α) (hk : k < n) :
    (List.replicate n a).getD k d = a := by
  rw [List.getD_eq_getElem _ d (by simpa using hk)]
  simp

/-- The mask `[0, 1, ..., total-1]`.  The C++ test
`mask.is_range() && mask.as_range() == IndexRange(total_size)` holds exactly
when the index mask is this list. -/
def rangeMask (total : Int) : List Int :=
  (List.range total.toNat).map (fun n => (n : Int))

/-- Offset shorthand: entry `k` of the offset table as a `Nat` buffer
position. -/
def offN (offsets : List Int) (k : Nat) : Nat := (offsets.getD k 0).toNat

/-- One iteration of the full-range loop of `point_attribute_materialize`
(geometry_component_curve.cc:619-631): write the data of spline `s` (or the
type's default value if that spline's span is empty) over the slice
`[offsets[s], offsets[s+1])` of the destination buffer. -/
def writeSeg {α : Type} [Inhabited α] (data : List (List α))
    (offsets : List Int) (s : Nat) (r : List α) : List α :=
  if (data.getD s []).isEmpty then
    writeRun r (offN offsets s)
      (List.replicate (offN offsets (s + 1) - offN offsets s) default)
  else writeRun r (offN offsets s) (data.getD s [])

/-- The full-range branch of `point_attribute_materialize`: iterate the spline
index over `data.index_range()`, writing each spline's slice. -/
def pamFullGo {α : Type} [Inhabited α] (data : List (List α))
    (offsets : List Int) (s : Nat) (r : List α) : List α :=
  if h : s < data.length then
    pamFullGo data offsets (s + 1) (writeSeg data offsets s r)
  else r
termination_by data.length - s

/-- The masked-branch cursor of `point_attribute_materialize`
(geometry_component_curve.cc:636-639): starting from spline index `s`, advance
while `dst ≥ offsets[spline_index + 1]`; the result is the first index at or
after `s` whose next offset exceeds `dst`.  When no table entry exceeds `dst`
the loop in the source would read past the table; the model stops at the last
table entry instead. -/
def skip_cursor (offsets : List Int) (dst : Int) (s : Nat) : Nat :=
  s + (offsets.drop (s + 1)).findIdx (fun o => decide (dst < o))

/-- The masked (non-full-range) branch of `point_attribute_materialize`
(geometry_component_curve.cc:633-650): iterate the requested indices while
advancing the monotonic spline cursor; an empty span writes the default. -/
def pamMaskedGo {α : Type} [Inhabited α] (data : List (List α))
    (offsets : List Int) (mask : List Int) (s : Nat) (r : List α) : List α :=
  match mask with
  | [] => r
  | dst :: rest =>
    let s2 := skip_cursor offsets dst s
    let src := data.getD s2 []
    let v := if src.isEmpty then default
             else src.getD (dst - offsets.getD s2 0).toNat default
    pamMaskedGo data offsets rest s2 (r.set dst.toNat v)

/-- `point_attribute_materialize` (geometry_component_curve.cc:611-651):
dispatch between the full-range bulk branch and the masked cursor branch. -/
def point_attribute_materialize {α : Type} [Inhabited α]
    (data : List (List α)) (offsets : List Int) (mask : List Int)
    (r : List α) : List α :=
  if mask = rangeMask (offsets.getLastD 0) then pamFullGo data offsets 0 r
  else pamMaskedGo data offsets mask 0 r

/-- `VArrayImpl_For_SplinePoints<T>::get` (geometry_component_curve.cc:808-812):
look up the owning spline, then read its span at the local index.  An element
whose spline span does not cover it (the empty span of a spline that lacks the
attribute) reads as the type's default value, the convention the materialize
functions and `VArrayImpl_For_BezierHandles::get` use for such elements. -/
def splinePoints_get {α : Type} [Inhabited α] (data : List (List α))
    (offsets : List Int) (index : Int) : α :=
  let pi := lookup_point_indices offsets index
  (data.getD pi.1.toNat []).getD pi.2.toNat default

/-- `VArrayImpl_For_SplinePoints<T>::set` (geometry_component_curve.cc:814-818):
look up the owning spline, then write its span at the local index. -/
def splinePoints_set {α : Type} (data : List (List α)) (offsets : List Int)
    (index : Int) (value : α) : List (List α) :=
  let pi := lookup_point_indices offsets index
  data.set pi.1.toNat ((data.getD pi.1.toNat []).set pi.2.toNat value)

/-- `offsets` is a well-formed offset table for the spline span list `data`:
one more entry than there are splines, first entry zero, non-decreasing. -/
def OffsetsFor {α : Type} (data : List (List α)) (offsets : List Int) : Prop :=
  offsets.length = data.length + 1 ∧
  offsets.getD 0 0 = 0 ∧
  ∀ b, b < offsets.length → ∀ a, a ≤ b → offsets.getD a 0 ≤ offsets.getD b 0

/-- The empty-span convention of the materialize functions
(geometry_component_curve.cc:608-610): every spline's span is either empty
(the spline carries no data for the attribute) or exactly covers the spline's
slice of the offset table. -/
def SpansWF {α : Type} (data : List (List α)) (offsets : List Int) : Prop :=
  ∀ s, s < data.length → (data.getD s []).length = 0 ∨
    ((data.getD s []).length : Int) = offsets.getD (s + 1) 0 - offsets.getD s 0

/-- A well-formed offset table has non-negative entries everywhere. -/
theorem offsets_nonneg {α : Type} (data : List (List α)) (offsets : List Int)
    (h : OffsetsFor data offsets) (k : Nat) : 0 ≤ offsets.getD k 0 := by
  obtain ⟨hlen, h0, hmono⟩ := h
  rcases Nat.lt_or_ge k offsets.length with hk | hk
  · have := hmono k hk 0 (Nat.zero_le k)
    omega
  · rw [List.getD_eq_default _ _ hk]

theorem writeSeg_length {α : Type} [Inhabited α] (data : List (List α))
    (offsets : List Int) (s : Nat) (r : List α) :
    (writeSeg data offsets s r).length = r.length := by
  unfold writeSeg
  split
  · exact writeRun_length _ _ _
  · exact writeRun_length _ _ _

/-- Positions outside of spline `s`'s slice are unchanged by `writeSeg`. -/
theorem writeSeg_getD_out {α : Type} [Inhabited α] (data : List (List α))
    (offsets : List Int) (hOF : OffsetsFor data offsets)
    (hSW : SpansWF data offsets) (s : Nat) (hs : s < data.length)
    (r : List α) (i : Nat) (d : α)
    (h : i < offN offsets s ∨ offN offsets (s + 1) ≤ i) :
    (writeSeg data offsets s r).getD i d = r.getD i d := by
  have ha := offsets_nonneg data offsets hOF s
  have hlen := hOF.1
  have hb : offsets.getD s 0 ≤ offsets.getD (s + 1) 0 :=
    hOF.2.2 (s + 1) (by omega) s (by omega)
  unfold writeSeg
  split
  · apply writeRun_getD_out
    rw [List.length_replicate]
    unfold offN at h ⊢
    omega
  · rename_i hsrc
    have hne : (data.getD s []).length ≠ 0 := by
      simpa [List.isEmpty_iff_length_eq_zero] using hsrc
    have hlenspan : ((data.getD s []).length : Int) =
        offsets.getD (s + 1) 0 - offsets.getD s 0 :=
      (hSW s hs).resolve_left hne
    apply writeRun_getD_out
    unfold offN at h ⊢
    omega

/-- Positions inside of spline `s`'s slice hold, after `writeSeg`, the default
value when the span is empty, and the span's value at the local index
otherwise. -/
theorem writeSeg_getD_in {α : Type} [Inhabited α] (data : List (List α))
    (offsets : List Int) (hOF : OffsetsFor data offsets)
    (hSW : SpansWF data offsets) (s : Nat) (hs : s < data.length)
    (r : List α) (i : Nat) (d : α)
    (h1 : offN offsets s ≤ i) (h2 : i < offN offsets (s + 1))
    (h3 : i < r.length) :
    (writeSeg data offsets s r).getD i d =
      (if (data.getD s []).isEmpty then (default : α)
       else (data.getD s []).getD (i - offN offsets s) d) := by
  have ha := offsets_nonneg data offsets hOF s
  have hlen := hOF.1
  have hb : offsets.getD s 0 ≤ offsets.getD (s + 1) 0 :=
    hOF.2.2 (s + 1) (by omega) s (by omega)
  unfold writeSeg
  by_cases hsrc : (data.getD s []).isEmpty = true
  · simp only [if_pos hsrc]
    rw [writeRun_getD_in _ _ _ _ _ h1 (by rw [List.length_replicate]; omega) h3]
    exact getD_replicate_self _ _ _ _ (by unfold offN at *; omega)
  · simp only [if_neg hsrc]
    have hne : (data.getD s []).length ≠ 0 := by
      simpa [List.isEmpty_iff_length_eq_zero] using hsrc
    have hlenspan : ((data.getD s []).length : Int) =
        offsets.getD (s + 1) 0 - offsets.getD s 0 :=
      (hSW s hs).resolve_left hne
    exact writeRun_getD_in _ _ _ _ _ h1 (by unfold offN at *; omega) h3

/-- Positions before the slice of spline `s` are untouched by the full-range
loop started at spline `s`. -/
theorem pamFullGo_getD_untouched {α : Type} [Inhabited α]
    (data : List (List α)) (offsets : List Int)
    (hOF : OffsetsFor data offsets) (hSW : SpansWF data offsets) :
    ∀ n s r (i : Nat) (d : α), data.length - s = n → i < offN offsets s →
      (pamFullGo data offsets s r).getD i d = r.getD i d := by
  intro n
  induction n with
  | zero =>
    intro s r i d hn hi
    rw [pamFullGo, dif_neg (by omega)]
  | succ n ih =>
    intro s r i d hn hi
    have hs : s < data.length := by omega
    rw [pamFullGo, dif_pos hs]
    have hnext : i < offN offsets (s + 1) := by
      have hlen := hOF.1
      have hb : offsets.getD s 0 ≤ offsets.getD (s + 1) 0 :=
        hOF.2.2 (s + 1) (by omega) s (by omega)
      unfold offN at *
      omega
    rw [ih (s + 1) _ i d (by omega) hnext]
    exact writeSeg_getD_out data offsets hOF hSW s hs r i d (Or.inl hi)

/-- The full-range loop started at spline `s` writes, at every position owned
by a later spline `t`, the value of spline `t`'s slice. -/
theorem pamFullGo_getD_owner {α : Type} [Inhabited α] (data : List (List α))
    (offsets : List Int) (hOF : OffsetsFor data offsets)
    (hSW : SpansWF data offsets) :
    ∀ n s t r (i : Nat) (d : α), data.length - s = n → s ≤ t →
      t < data.length → offN offsets t ≤ i → i < offN offsets (t + 1) →
      i < r.length →
      (pamFullGo data offsets s r).getD i d =
        (if (data.getD t []).isEmpty then (default : α)
         else (data.getD t []).getD (i - offN offsets t) d) := by
  intro n
  induction n with
  | zero =>
    intro s t r i d hn hst ht _ _ _
    omega
  | succ n ih =>
    intro s t r i d hn hst ht h1 h2 h3
    have hs : s < data.length := by omega
    rw [pamFullGo, dif_pos hs]
    rcases Nat.eq_or_lt_of_le hst with he | hlt
    · subst he
      rw [pamFullGo_getD_untouched data offsets hOF hSW
        (data.length - (s + 1)) (s + 1) _ i d rfl h2]
      exact writeSeg_getD_in data offsets hOF hSW s hs r i d h1 h2 h3
    · rw [ih (s + 1) t _ i d (by omega) (by omega) ht h1 h2
        (by rw [writeSeg_length]; exact h3)]

/-- `getLastD` is `getD` at the last position. -/
theorem getLastD_eq_getD_len {α : Type} (l : List α) (d : α) :
    l.getLastD d = l.getD (l.length - 1) d := by
  rw [List.getLastD_eq_getLast?, List.getLast?_eq_getElem?,
    List.getD_eq_getElem?_getD]

/-- C2: for a per-point attribute backed by one span per spline, materializing
with the full contiguous range as the mask produces, at every flat index, the
value `get` returns there — including splines whose span is empty, which read
and materialize as the type's default value. -/
theorem C2_materialize_full_range_eq_get {α : Type} [Inhabited α]
    (data : List (List α)) (offsets : List Int) (r : List α) (i : Int)
    (hOF : OffsetsFor data offsets) (hSW : SpansWF data offsets)
    (hr : (r.length : Int) = offsets.getD data.length 0)
    (hi0 : 0 ≤ i) (hit : i < offsets.getD data.length 0) :
    (point_attribute_materialize data offsets
        (rangeMask (offsets.getD data.length 0)) r).getD i.toNat default =
      splinePoints_get data offsets i := by
  have hlen := hOF.1
  have hlast : offsets.getLastD 0 = offsets.getD data.length 0 := by
    rw [getLastD_eq_getD_len]
    congr 1
    omega
  obtain ⟨s, hsN, hpair, hles, hlts, huniq⟩ :=
    lookup_point_indices_spec offsets data.length (offsets.getD data.length 0)
      i hlen hOF.2.1 hOF.2.2 rfl hi0 hit
  unfold point_attribute_materialize
  rw [hlast, if_pos rfl]
  unfold splinePoints_get
  rw [hpair]
  have hnn := offsets_nonneg data offsets hOF s
  have hnn1 := offsets_nonneg data offsets hOF (s + 1)
  have hA : offN offsets s ≤ i.toNat := by unfold offN; omega
  have hB : i.toNat < offN offsets (s + 1) := by unfold offN; omega
  have hC : i.toNat < r.length := by omega
  rw [pamFullGo_getD_owner data offsets hOF hSW data.length 0 s r i.toNat
    default rfl (Nat.zero_le s) hsN hA hB hC]
  have hsTN : ((s : Int)).toNat = s := by omega
  simp only [hsTN]
  by_cases hsrc : (data.getD s []).isEmpty = true
  · rw [if_pos hsrc]
    have hnil : data.getD s [] = [] := by simpa using hsrc
    rw [hnil]
    simp
  · rw [if_neg hsrc]
    congr 1
    unfold offN
    omega

/-- C2 witness: two splines of sizes 3 and 2; the first carries the span
`[10, 20, 30]`, the second lacks the attribute (empty span).  Index 4 lies in
the second spline and both materialize and get produce the default. -/
theorem C2_witness :
    (point_attribute_materialize [[10, 20, 30], []] [0, 3, 5]
        (rangeMask (([0, 3, 5] : List Int).getD 2 0))
        ([7, 7, 7, 7, 7] : List Int)).getD (4 : Int).toNat default =
      splinePoints_get [[10, 20, 30], []] [0, 3, 5] 4 :=
  C2_materialize_full_range_eq_get [[10, 20, 30], []] [0, 3, 5]
    [7, 7, 7, 7, 7] 4 ⟨rfl, rfl, by decide⟩ (by unfold SpansWF; decide)
    (by decide) (by decide) (by decide)

/-- `VArray_For_SplineToPoint<T>::get` (geometry_component_curve.cc:272-276):
look up the owning spline of the flat index and return that spline's single
value. -/
def splineToPoint_get {α : Type} [Inhabited α] (vals : List α)
    (offsets : List Int) (index : Int) : α :=
  vals.getD (lookup_point_indices offsets index).1.toNat default

/-- The full-range branch of `VArray_For_SplineToPoint<T>::materialize`
(geometry_component_curve.cc:281-287): fill each spline's slice of the
destination with that spline's value. -/
def stpFullGo {α : Type} [Inhabited α] (vals : List α) (offsets : List Int)
    (s : Nat) (r : List α) : List α :=
  if _h : s < vals.length then
    stpFullGo vals offsets (s + 1)
      (writeRun r (offN offsets s)
        (List.replicate (offN offsets (s + 1) - offN offsets s)
          (vals.getD s default)))
  else r
termination_by vals.length - s

/-- The masked-branch cursor of `VArray_For_SplineToPoint<T>::materialize`
(geometry_component_curve.cc:291-293): starting from spline index `s`, advance
while `offsets[spline_index] < dst`; the result is the first index at or after
`s` whose offset is at least `dst`.  When every remaining entry is below `dst`
the loop in the source runs past the table; the model stops at the table
length instead. -/
def advance_cursor (offsets : List Int) (dst : Int) (s : Nat) : Nat :=
  s + (offsets.drop s).findIdx (fun o => decide (dst ≤ o))

/-- The masked (non-full-range) branch of
`VArray_For_SplineToPoint<T>::materialize`
(geometry_component_curve.cc:288-296): for each requested index, advance the
cursor with `advance_cursor` and write `original_data_[spline_index]`. -/
def stpMaskedGo {α : Type} [Inhabited α] (vals : List α) (offsets : List Int)
    (mask : List Int) (s : Nat) (r : List α) : List α :=
  match mask with
  | [] => r
  | dst :: rest =>
    stpMaskedGo vals offsets rest (advance_cursor offsets dst s)
      (r.set dst.toNat (vals.getD (advance_cursor offsets dst s) default))

/-- `VArray_For_SplineToPoint<T>::materialize`
(geometry_component_curve.cc:278-297): dispatch between the full-range fill
branch and the masked cursor branch. -/
def splineToPoint_materialize {α : Type} [Inhabited α] (vals : List α)
    (offsets : List Int) (mask : List Int) (r : List α) : List α :=
  if mask = rangeMask (offsets.getLastD 0) then stpFullGo vals offsets 0 r
  else stpMaskedGo vals offsets mask 0 r

/-- C3: the masked branch of `VArray_For_SplineToPoint::materialize` advances
its cursor with `offsets_[spline_index] < dst_index`, which stops at the first
offset `≥ dst` instead of at the owning spline.  Concretely, with two splines
of sizes [2, 2] broadcasting the per-spline values [10, 20] and the
non-full mask [1]: index 1 is owned by spline 0 (so `get` returns 10 and the
claimed behaviour writes 10), but materialize writes 20, the value of
spline 1. -/
theorem C3_masked_materialize_writes_wrong_spline :
    splineToPoint_materialize ([10, 20] : List Int) [0, 2, 4] [1]
        [0, 0, 0, 0] = [0, 20, 0, 0] ∧
    splineToPoint_get ([10, 20] : List Int) [0, 2, 4] 1 = 10 ∧
    (lookup_point_indices [0, 2, 4] 1).1 = 0 ∧
    (10 : Int) ≠ 20 := by decide

/-- Spline kinds (`CurveType`): `CURVE_TYPE_CATMULL_ROM` is the explicitly
unsupported kind. -/
inductive SplineKind
  | bezier
  | poly
  | nurbs
  | catmullRom
deriving DecidableEq

/-- Modelled from the spec: the per-instance collaborator state of one
`Spline` that the spline-level builtin attributes touch (the `Spline` class
hierarchy of `BKE_spline.hh` is outside this repository's sources).
`resolution` is the stored value behind `BezierSpline::resolution()` /
`NURBSpline::resolution()` ("resolution: positive integer ≥ 1"),
`cyclic` the flag behind `is_cyclic()`/`set_cyclic()`, and `cacheValid` the
cached evaluation data that `mark_cache_invalid()` clears. -/
structure Spline where
  kind : SplineKind
  resolution : Int
  cyclic : Bool
  cacheValid : Bool
deriving DecidableEq

/-- `get_spline_resolution` (geometry_component_curve.cc:541-550): the
`dynamic_cast` succeeds exactly for the matching concrete kind; every other
kind reads 1. -/
def get_spline_resolution (sp : Spline) : Int :=
  match sp.kind with
  | SplineKind.bezier => sp.resolution
  | SplineKind.nurbs => sp.resolution
  | _ => 1

/-- `set_spline_resolution` (geometry_component_curve.cc:552-560): Bezier and
NURBS splines store `max(resolution, 1)`; every other kind is untouched. -/
def set_spline_resolution (sp : Spline) (resolution : Int) : Spline :=
  match sp.kind with
  | SplineKind.bezier => Spline.mk sp.kind (max resolution 1) sp.cyclic sp.cacheValid
  | SplineKind.nurbs => Spline.mk sp.kind (max resolution 1) sp.cyclic sp.cacheValid
  | _ => sp

/-- `get_cyclic_value` (geometry_component_curve.cc:573-576). -/
def get_cyclic_value (sp : Spline) : Bool := sp.cyclic

/-- `set_cyclic_value` (geometry_component_curve.cc:578-584): store the value
and invalidate the spline's cache only when the written value differs from
the stored one. -/
def set_cyclic_value (sp : Spline) (value : Bool) : Spline :=
  if sp.cyclic ≠ value then Spline.mk sp.kind sp.resolution value false
  else sp

/-- Exact-span shape of a write adapter's backing storage: every spline's span
covers exactly the spline's slice of the offset table (write adapters are
built over the splines' real storage arrays). -/
def SpansExact {α : Type} (data : List (List α)) (offsets : List Int) : Prop :=
  ∀ s, s < data.length →
    ((data.getD s []).length : Int) =
      offsets.getD (s + 1) 0 - offsets.getD s 0

/-- Helper: set-then-get round-trip through `VArrayImpl_For_SplinePoints`. -/
theorem splinePoints_set_get (α : Type) [Inhabited α] (data : List (List α))
    (offsets : List Int) (i : Int) (v : α)
    (hOF : OffsetsFor data offsets) (hSE : SpansExact data offsets)
    (hi0 : 0 ≤ i) (hit : i < offsets.getD data.length 0) :
    splinePoints_get (splinePoints_set data offsets i v) offsets i = v := by
  have hlen := hOF.1
  obtain ⟨s, hsN, hpair, hles, hlts, huniq⟩ :=
    lookup_point_indices_spec offsets data.length (offsets.getD data.length 0)
      i hlen hOF.2.1 hOF.2.2 rfl hi0 hit
  have hnn := offsets_nonneg data offsets hOF s
  unfold splinePoints_get splinePoints_set
  rw [hpair]
  have hsTN : ((s : Int)).toNat = s := by omega
  simp only [hsTN]
  have hspan := hSE s hsN
  have hp : (i - offsets.getD s 0).toNat < (data.getD s []).length := by omega
  rw [getD_set_self data s _ [] hsN, getD_set_self _ _ _ _ hp]

/-- C4 counterexample: the round-trip claim includes the derived resolution
attribute for every value, but writing 0 to a Bezier spline's resolution
stores the clamped value 1, so reading back gives 1, not 0. -/
theorem C4_counterexample :
    ¬ get_spline_resolution
        (set_spline_resolution (Spline.mk SplineKind.bezier 4 false true) 0)
      = 0 := by decide

/-- C4 (amended): set-then-get returns the written value for every span-backed
point attribute at every valid flat index; for the derived resolution
attribute the round-trip holds on the splines that carry a resolution (Bezier
and NURBS) exactly for values `≥ 1` (smaller writes are clamped to 1); the
cyclic attribute round-trips for every boolean. -/
theorem C4_roundtrip_amended :
    (∀ (α : Type) [Inhabited α] (data : List (List α)) (offsets : List Int)
        (i : Int) (v : α), OffsetsFor data offsets → SpansExact data offsets →
        0 ≤ i → i < offsets.getD data.length 0 →
        splinePoints_get (splinePoints_set data offsets i v) offsets i = v) ∧
    (∀ (sp : Spline) (v : Int),
        (sp.kind = SplineKind.bezier ∨ sp.kind = SplineKind.nurbs) → 1 ≤ v →
        get_spline_resolution (set_spline_resolution sp v) = v) ∧
    (∀ (sp : Spline) (v : Bool),
        get_cyclic_value (set_cyclic_value sp v) = v) := by
  refine ⟨?_, ?_, ?_⟩
  · intro α inst data offsets i v hOF hSE hi0 hit
    exact splinePoints_set_get α data offsets i v hOF hSE hi0 hit
  · intro sp v hk hv
    obtain ⟨k, r, c, cv⟩ := sp
    rcases hk with hk | hk <;> subst hk <;>
      simp [get_spline_resolution, set_spline_resolution] <;> omega
  · intro sp v
    obtain ⟨k, r, c, cv⟩ := sp
    unfold set_cyclic_value get_cyclic_value
    by_cases hc : c = v
    · subst hc
      simp
    · simp [hc]

/-- C4 witness: a two-spline span-backed attribute at flat index 1 with value
9; a Bezier resolution write of 7; a cyclic write of `true`. -/
theorem C4_witness :
    splinePoints_get
        (splinePoints_set ([[1, 2], [3]] : List (List Int)) [0, 2, 3] 1 9)
        [0, 2, 3] 1 = 9 ∧
    get_spline_resolution
        (set_spline_resolution (Spline.mk SplineKind.bezier 4 false true) 7)
      = 7 ∧
    get_cyclic_value
        (set_cyclic_value (Spline.mk SplineKind.poly 1 false true) true)
      = true :=
  ⟨C4_roundtrip_amended.1 Int [[1, 2], [3]] [0, 2, 3] 1 9
      ⟨rfl, rfl, by decide⟩ (by unfold SpansExact; decide) (by decide)
      (by decide),
    C4_roundtrip_amended.2.1 (Spline.mk SplineKind.bezier 4 false true) 7
      (Or.inl rfl) (by decide),
    C4_roundtrip_amended.2.2 (Spline.mk SplineKind.poly 1 false true) true⟩

/-- C6 counterexample: writing 5 to the resolution of a Poly spline stores
nothing (the write is a no-op for kinds without a resolution) and a subsequent
read returns 1, not `max 5 1 = 5` — so "writing v to any spline stores
max(v, 1)" fails as stated. -/
theorem C6_counterexample :
    ¬ get_spline_resolution
        (set_spline_resolution (Spline.mk SplineKind.poly 12 false true) 5)
      = max 5 1 := by decide

/-- C6 (amended): writing `v` to the resolution attribute stores `max(v, 1)`
on the splines that carry a resolution (Bezier and NURBS) and leaves every
other kind entirely unchanged (their reads always return 1); in particular a
write of -1 or of 0 makes a subsequent read return 1 for every kind; and
after any resolution write, a read returns an integer ≥ 1, so the
`resolution ≥ 1` invariant is preserved by every write. -/
theorem C6_resolution_clamp_amended :
    (∀ (sp : Spline) (v : Int),
        (sp.kind = SplineKind.bezier ∨ sp.kind = SplineKind.nurbs) →
        (set_spline_resolution sp v).resolution = max v 1) ∧
    (∀ (sp : Spline) (v : Int),
        sp.kind ≠ SplineKind.bezier → sp.kind ≠ SplineKind.nurbs →
        set_spline_resolution sp v = sp) ∧
    (∀ sp : Spline,
        get_spline_resolution (set_spline_resolution sp (-1)) = 1 ∧
        get_spline_resolution (set_spline_resolution sp 0) = 1) ∧
    (∀ (sp : Spline) (v : Int),
        1 ≤ get_spline_resolution (set_spline_resolution sp v)) := by
  refine ⟨?_, ?_, ?_, ?_⟩
  · intro sp v hk
    obtain ⟨k, r, c, cv⟩ := sp
    rcases hk with hk | hk <;> subst hk <;>
      simp [set_spline_resolution]
  · intro sp v h1 h2
    obtain ⟨k, r, c, cv⟩ := sp
    cases k <;> simp_all [set_spline_resolution]
  · intro sp
    obtain ⟨k, r, c, cv⟩ := sp
    cases k <;>
      simp [set_spline_resolution, get_spline_resolution]
  · intro sp v
    obtain ⟨k, r, c, cv⟩ := sp
    cases k <;>
      simp [set_spline_resolution, get_spline_resolution]

/-- C6 witness: a NURBS write of -1 stores `max(-1, 1) = 1`; a write of 9 to a
Catmull-Rom spline leaves the spline unchanged. -/
theorem C6_witness :
    (set_spline_resolution (Spline.mk SplineKind.nurbs 3 false true)
        (-1)).resolution = max (-1) 1 ∧
    set_spline_resolution (Spline.mk SplineKind.catmullRom 3 false true) 9 =
      Spline.mk SplineKind.catmullRom 3 false true :=
  ⟨C6_resolution_clamp_amended.1 (Spline.mk SplineKind.nurbs 3 false true)
      (-1) (Or.inr rfl),
    C6_resolution_clamp_amended.2.1
      (Spline.mk SplineKind.catmullRom 3 false true) 9 (by decide) (by decide)⟩

/-- C10: writing the current cyclic value back through `set_cyclic_value`
leaves the spline entirely unchanged (no store, no cache invalidation); a
differing value is stored and the cached evaluation data is invalidated, and
only then. -/
theorem C10_cyclic_equal_write_is_noop (sp : Spline) (v : Bool) :
    (get_cyclic_value sp = v → set_cyclic_value sp v = sp) ∧
    (get_cyclic_value sp ≠ v →
      set_cyclic_value sp v = Spline.mk sp.kind sp.resolution v false) := by
  unfold get_cyclic_value set_cyclic_value
  constructor
  · intro h
    simp [h]
  · intro h
    simp [h]

/-- C10 witness: writing `true` to an already-cyclic spline with a valid cache
changes nothing; writing `false` to it stores the flag and clears the cache. -/
theorem C10_witness :
    set_cyclic_value (Spline.mk SplineKind.poly 12 true true) true =
      Spline.mk SplineKind.poly 12 true true ∧
    set_cyclic_value (Spline.mk SplineKind.poly 12 true true) false =
      Spline.mk SplineKind.poly 12 false false :=
  ⟨(C10_cyclic_equal_write_is_noop (Spline.mk SplineKind.poly 12 true true)
      true).1 rfl,
    (C10_cyclic_equal_write_is_noop (Spline.mk SplineKind.poly 12 true true)
      false).2 (by decide)⟩

/-- The runtime value-type tags the dynamic provider deals with
(`CustomDataType`); `other` stands for every unsupported tag. -/
inductive CDType
  | float
  | float2
  | float3
  | int32
  | color
  | boolean
  | other
deriving DecidableEq

/-- A typed attribute span as the dynamic provider sees it (`GSpan`): a
runtime type tag plus the raw cells (cell payloads abstracted as `Int`). -/
structure GSpanM where
  dtype : CDType
  cells : List Int
deriving DecidableEq

/-- One spline's named attribute-slot table
(`Spline::attributes`), as an association list from names to spans. -/
structure SplineAttrs where
  attributes : List (String × GSpanM)
deriving DecidableEq

/-- `CustomDataAttributes::get_for_read(attribute_id)`: the span stored under
the name, when present. -/
def attributes_get_for_read (sa : SplineAttrs) (name : String) :
    Option GSpanM :=
  (sa.attributes.find? (fun e => e.1 == name)).map (fun e => e.2)

/-- The presence/type verification loop of
`DynamicPointAttributeProvider::try_get_for_read`
(geometry_component_curve.cc:1328-1343): every subsequent spline must carry
the slot, and its type must match the previously collected span's type,
otherwise the whole lookup returns absent. -/
def dynamic_collect (name : String) (prevType : CDType) :
    List SplineAttrs → Option (List GSpanM)
  | [] => some []
  | sa :: rest =>
    match attributes_get_for_read sa name with
    | none => none
    | some sp =>
      if sp.dtype = prevType then
        (dynamic_collect name sp.dtype rest).map (fun l => sp :: l)
      else none

/-- `DynamicPointAttributeProvider::try_get_for_read`
(geometry_component_curve.cc:1312-1365), reduced to the data it returns: the
per-spline spans when the curve has at least one spline and every spline
carries an identically-typed slot for the requested name; absent otherwise.
The virtual array the source then builds (a bare span for one spline,
`point_data_varray` for several) is present exactly when this is `some`. -/
def dynamic_try_get_for_read (splines : List SplineAttrs) (name : String) :
    Option (List GSpanM) :=
  match splines with
  | [] => none
  | s0 :: rest =>
    match attributes_get_for_read s0 name with
    | none => none
    | some sp0 => (dynamic_collect name sp0.dtype rest).map (fun l => sp0 :: l)

/-- When the verification loop succeeds, every visited spline carries the slot
at the running type. -/
theorem dynamic_collect_some (name : String) :
    ∀ (rest : List SplineAttrs) (prevType : CDType) (l : List GSpanM),
      dynamic_collect name prevType rest = some l →
      ∀ sa ∈ rest, ∃ sp, attributes_get_for_read sa name = some sp ∧
        sp.dtype = prevType := by
  intro rest
  induction rest with
  | nil =>
    intro pt l h sa hsa
    simp at hsa
  | cons sa0 rest ih =>
    intro pt l h sa hsa
    rw [dynamic_collect] at h
    cases hget : attributes_get_for_read sa0 name with
    | none =>
      simp only [hget] at h
      exact Option.noConfusion h
    | some sp =>
      simp only [hget] at h
      by_cases hty : sp.dtype = pt
      · simp only [if_pos hty] at h
        cases hrec : dynamic_collect name sp.dtype rest with
        | none =>
          simp only [hrec, Option.map_none'] at h
          exact Option.noConfusion h
        | some l2 =>
          rcases List.mem_cons.mp hsa with he | hm
          · subst he
            exact ⟨sp, hget, hty⟩
          · obtain ⟨sp2, hg2, ht2⟩ := ih sp.dtype l2 hrec sa hm
            exact ⟨sp2, hg2, by rw [ht2, hty]⟩
      · simp only [if_neg hty] at h
        exact Option.noConfusion h

/-- When the lookup succeeds, every spline carries the slot at the first
spline's type. -/
theorem dynamic_try_get_some (splines : List SplineAttrs) (name : String)
    (res : List GSpanM)
    (h : dynamic_try_get_for_read splines name = some res) :
    ∃ ty : CDType, ∀ sa ∈ splines,
      ∃ sp, attributes_get_for_read sa name = some sp ∧ sp.dtype = ty := by
  cases splines with
  | nil => exact absurd h (by simp [dynamic_try_get_for_read])
  | cons s0 rest =>
    rw [dynamic_try_get_for_read] at h
    cases hget : attributes_get_for_read s0 name with
    | none =>
      simp only [hget] at h
      exact Option.noConfusion h
    | some sp0 =>
      simp only [hget] at h
      cases hrec : dynamic_collect name sp0.dtype rest with
      | none =>
        simp only [hrec, Option.map_none'] at h
        exact Option.noConfusion h
      | some l =>
        refine ⟨sp0.dtype, ?_⟩
        intro sa hsa
        rcases List.mem_cons.mp hsa with he | hm
        · subst he
          exact ⟨sp0, hget, rfl⟩
        · exact dynamic_collect_some name rest sp0.dtype l hrec sa hm

/-- C5: if any spline lacks the requested named dynamic per-point attribute,
or carries it with a different value type than another spline, then
`DynamicPointAttributeProvider::try_get_for_read` returns absent for the
whole curve — no partial data. -/
theorem C5_dynamic_read_fails_closed (splines : List SplineAttrs)
    (name : String)
    (h : (∃ sa ∈ splines, attributes_get_for_read sa name = none) ∨
      (∃ sa1 ∈ splines, ∃ sa2 ∈ splines, ∃ sp1 sp2 : GSpanM,
        attributes_get_for_read sa1 name = some sp1 ∧
        attributes_get_for_read sa2 name = some sp2 ∧
        sp1.dtype ≠ sp2.dtype)) :
    dynamic_try_get_for_read splines name = none := by
  cases hres : dynamic_try_get_for_read splines name with
  | none => rfl
  | some res =>
    exfalso
    obtain ⟨ty, hall⟩ := dynamic_try_get_some splines name res hres
    rcases h with ⟨sa, hmem, hnone⟩ | ⟨sa1, hm1, sa2, hm2, sp1, sp2, hg1, hg2, hne⟩
    · obtain ⟨sp, hg, _⟩ := hall sa hmem
      rw [hnone] at hg
      exact absurd hg (by simp)
    · obtain ⟨spa, hga, hta⟩ := hall sa1 hm1
      obtain ⟨spb, hgb, htb⟩ := hall sa2 hm2
      rw [hg1] at hga
      rw [hg2] at hgb
      apply hne
      rw [Option.some_inj.mp hga, Option.some_inj.mp hgb, hta, htb]

/-- C5 witness (concrete scenario D): the attribute is present on spline 0 as
a float span but absent on spline 1, and the lookup returns absent for the
whole curve. -/
theorem C5_witness :
    dynamic_try_get_for_read
      [SplineAttrs.mk [("mass", GSpanM.mk CDType.float [1, 2, 3])],
        SplineAttrs.mk []] "mass" = none :=
  C5_dynamic_read_fails_closed
    [SplineAttrs.mk [("mass", GSpanM.mk CDType.float [1, 2, 3])],
      SplineAttrs.mk []] "mass" (Or.inl (by decide))

/-- Modelled from the spec: `CurveEval::control_point_offsets`
(`BKE_spline.hh`, outside this repository's sources): "offsets[i] = sum of
element counts of sub-containers [0, i); length = sub-container count + 1;
offsets[last] = total element count". -/
def control_point_offsets (sizes : List Nat) : List Int :=
  (List.range (sizes.length + 1)).map (fun i => (((sizes.take i).sum : Nat) : Int))

theorem control_point_offsets_length (sizes : List Nat) :
    (control_point_offsets sizes).length = sizes.length + 1 := by
  simp [control_point_offsets]

theorem control_point_offsets_getD (sizes : List Nat) (s : Nat)
    (hs : s ≤ sizes.length) :
    (control_point_offsets sizes).getD s 0 = (((sizes.take s).sum : Nat) : Int) := by
  unfold control_point_offsets
  rw [List.getD_eq_getElem _ _ (by simp; omega)]
  simp

/-- The per-spline scan of the boolean specialization of
`adapt_curve_domain_point_to_spline_impl` (geometry_component_curve.cc:224-233):
the output for a spline starts `true` and is cleared when any of its control
points reads `false`. -/
def splineAllTrue (old_values : List Bool) (off len : Nat) : Bool :=
  (List.range len).all (fun i => old_values.getD (off + i) false)

/-- `adapt_curve_domain_point_to_spline_impl<bool>`
(geometry_component_curve.cc:213-235): fill the per-spline output with `true`,
then clear every spline that contains a `false` control point; splines are
delimited by `control_point_offsets`. -/
def adapt_point_to_spline_bool (sizes : List Nat) (old_values : List Bool) :
    List Bool :=
  (List.range sizes.length).map (fun s =>
    splineAllTrue old_values
      (offN (control_point_offsets sizes) s)
      (offN (control_point_offsets sizes) (s + 1) -
        offN (control_point_offsets sizes) s))

/-- C7: the point-to-spline adaptation of a boolean attribute computes the
logical AND over each spline's control points: spline `s`'s output is `true`
exactly when every one of its `sizes[s]` control points (stored at flat
indices `sum sizes[0..s) + i`) is `true`; in particular a spline with zero
control points yields `true`. -/
theorem C7_point_to_spline_bool_is_and (sizes : List Nat)
    (old_values : List Bool) (s : Nat) (hs : s < sizes.length) :
    ((adapt_point_to_spline_bool sizes old_values).getD s false = true ↔
      ∀ i, i < sizes.getD s 0 →
        old_values.getD ((sizes.take s).sum + i) false = true) ∧
    (sizes.getD s 0 = 0 →
      (adapt_point_to_spline_bool sizes old_values).getD s false = true) := by
  have h1 : offN (control_point_offsets sizes) s = (sizes.take s).sum := by
    unfold offN
    rw [control_point_offsets_getD sizes s (by omega)]
    omega
  have h2 : offN (control_point_offsets sizes) (s + 1) =
      (sizes.take (s + 1)).sum := by
    unfold offN
    rw [control_point_offsets_getD sizes (s + 1) (by omega)]
    omega
  have h3 : (sizes.take (s + 1)).sum = (sizes.take s).sum + sizes.getD s 0 := by
    rw [List.sum_take_succ sizes s hs]
    rw [List.getD_eq_getElem _ _ hs]
  have hmain : (adapt_point_to_spline_bool sizes old_values).getD s false =
      splineAllTrue old_values (sizes.take s).sum (sizes.getD s 0) := by
    unfold adapt_point_to_spline_bool
    rw [List.getD_eq_getElem _ _ (by simp; omega)]
    simp only [List.getElem_map, List.getElem_range]
    rw [h1, h2, h3]
    congr 1
    omega
  rw [hmain]
  constructor
  · unfold splineAllTrue
    rw [List.all_eq_true]
    constructor
    · intro hall i hi
      exact hall i (List.mem_range.mpr hi)
    · intro hall i hi
      exact hall i (List.mem_range.mp hi)
  · intro hz
    rw [hz]
    rfl

/-- C7 witness: sizes `[2, 0, 1]` with point values `[true, false, true]`:
spline 0 contains a `false` point, spline 1 is empty (vacuously true),
spline 2's single point is `true`. -/
theorem C7_witness :
    ((adapt_point_to_spline_bool [2, 0, 1] [true, false, true]).getD 1 false
        = true ↔
      ∀ i, i < ([2, 0, 1] : List Nat).getD 1 0 →
        ([true, false, true] : List Bool).getD
          ((([2, 0, 1] : List Nat).take 1).sum + i) false = true) ∧
    (([2, 0, 1] : List Nat).getD 1 0 = 0 →
      (adapt_point_to_spline_bool [2, 0, 1] [true, false, true]).getD 1 false
        = true) :=
  C7_point_to_spline_bool_is_and [2, 0, 1] [true, false, true] 1 (by decide)

/-- Modelled from the spec: `attribute_math::DefaultMixer<T>` for numeric
types (`BKE_attribute_math.hh`, outside this repository's sources): a running
weighted accumulation over a spline's control points, finalized by dividing by
the weight count, a spline with zero control points contributing the
default/zero value.  Scalar float arithmetic is modelled exactly, over `ℚ`. -/
def spline_mean (vals : List ℚ) (off len : Nat) : ℚ :=
  if len = 0 then 0
  else ((List.range len).map (fun i => vals.getD (off + i) 0)).sum / (len : ℚ)

/-- `adapt_curve_domain_point_to_spline_impl<T>`
(geometry_component_curve.cc:184-204) for a scalar numeric attribute: mix in
every control point of each spline, finalize to the per-spline mean. -/
def adapt_point_to_spline_mean (sizes : List Nat) (vals : List ℚ) : List ℚ :=
  (List.range sizes.length).map (fun s =>
    spline_mean vals (offN (control_point_offsets sizes) s)
      (offN (control_point_offsets sizes) (s + 1) -
        offN (control_point_offsets sizes) s))

/-- C8 (concrete scenario A): two splines of sizes [3, 2] with per-point float
values [1, 2, 3, 4, 5] adapt to the per-spline means [2.0, 4.5]. -/
theorem C8_point_to_spline_mean_scenario :
    adapt_point_to_spline_mean [3, 2] [1, 2, 3, 4, 5] = [2, 9 / 2] := by
  have h0 : offN (control_point_offsets [3, 2]) 0 = 0 := by decide
  have h1 : offN (control_point_offsets [3, 2]) 1 = 3 := by decide
  have h2 : offN (control_point_offsets [3, 2]) 2 = 5 := by decide
  unfold adapt_point_to_spline_mean
  norm_num [List.range_succ, h0, h1, h2, spline_mean]

/-- `AttributeDomain` (`ATTR_DOMAIN_*`). -/
inductive AttributeDomain
  | auto
  | point
  | edge
  | face
  | corner
  | curve
  | instances
deriving DecidableEq

/-- `CurveComponent::attribute_try_adapt_domain_impl`
(geometry_component_curve.cc:337-359).  The generic virtual array handle is
modelled as `Option (List V)` — `none` is a null `GVArray` — and the two
conversion routines are parameters, since the source dispatches each per
runtime type. -/
def attribute_try_adapt_domain_impl {V : Type}
    (pointToSpline splineToPoint : List V → Option (List V))
    (varray : Option (List V)) (from_domain to_domain : AttributeDomain) :
    Option (List V) :=
  match varray with
  | none => none
  | some v =>
    if v.isEmpty then none
    else if from_domain = to_domain then some v
    else if from_domain = AttributeDomain.point ∧
        to_domain = AttributeDomain.curve then
      pointToSpline v
    else if from_domain = AttributeDomain.curve ∧
        to_domain = AttributeDomain.point then
      splineToPoint v
    else none

/-- C9 counterexample: adapting an empty (but non-null) virtual array from a
domain to the same domain returns the absent/null handle, not the same
array — the `varray.is_empty()` guard runs before the `from == to`
short-circuit. -/
theorem C9_counterexample :
    attribute_try_adapt_domain_impl (fun _ => none) (fun _ => none)
        (some ([] : List Int)) AttributeDomain.point AttributeDomain.point
      = none ∧
    (none : Option (List Int)) ≠ some [] := by
  constructor
  · rfl
  · intro h
    exact Option.noConfusion h

/-- C9 (amended): for every non-null, non-empty input virtual array and every
domain `D`, adapting from `D` to `D` returns the very same array unchanged
(identity short-circuit), whatever the two conversion routines are; a null or
empty input yields absent instead. -/
theorem C9_adapt_same_domain_identity {V : Type}
    (pointToSpline splineToPoint : List V → Option (List V))
    (varray : List V) (D : AttributeDomain) (hne : varray ≠ []) :
    attribute_try_adapt_domain_impl pointToSpline splineToPoint (some varray)
      D D = some varray := by
  simp only [attribute_try_adapt_domain_impl]
  rw [if_neg (by simpa using hne)]
  simp

/-- C9 witness: the singleton array `[3]` on the curve domain. -/
theorem C9_witness :
    attribute_try_adapt_domain_impl (fun _ => none) (fun _ => none)
      (some ([3] : List Int)) AttributeDomain.curve AttributeDomain.curve
      = some [3] :=
  C9_adapt_same_domain_identity (fun _ => none) (fun _ => none) [3]
    AttributeDomain.curve (by decide)
